import Mathlib

/-!
Verification of the segment-graph stitching core of the hikepy repository
(file src/py/osm_query.py), shallowly embedded in Lean 4.

Embedding conventions
- OSM node ids and way ids are natural numbers.
- A pandas DataFrame with columns way, begin, end (built by get_relation from
  np.array([l_way, l_begin, l_end]).transpose()) is a List Row; the positional
  RangeIndex 0..N-1 of the frame is the list position.
- The expression (current_node not in df.begin) in check_node tests membership
  in the Series INDEX (pandas Series.__contains__ checks the index, not the
  values), which for these frames is the RangeIndex; it is modelled as
  (currentNode < df.length).
- A bare raise caught by a bare except is modelled by Option: none stands for
  the raised-and-caught control-flow signal.
- Exceptions that no handler catches (the TypeError raised by int() applied to
  a pandas Series of length other than one inside get_segment, and IndexError
  from out-of-range list indexing) escape create_track_points; the loop result
  type TrackResult has a constructor error for this outcome, and spin for
  running out of fuel (the Python while True loop need not terminate).
- The remote OSM lookup of a way is a parameter fetch : Nat -> Option (List Nat)
  giving the nd list of a way id; none models the caught lookup failure inside
  get_way_nodes (try/except returning None).  Python truthiness (if nd:) makes
  get_relation_nodes drop both None and the empty list, hence the pattern match
  on some (n0 :: rest).
-/

/-- One row of the ways frame built by get_relation: columns way, begin, end.
The Python column names begin and end are not valid Lean identifiers, hence
the trailing underscore. -/
structure Row where
  way : Nat
  begin_ : Nat
  end_ : Nat
deriving DecidableEq, Repr

/-- One entry of relation['member']: the way reference and the role tag.
The member type tag is not used by the covered code paths. -/
structure Member where
  ref : Nat
  role : String
deriving DecidableEq, Repr

/-- Result of the reconstruction loop of create_track_points: a normally
returned track, an uncaught exception, or fuel exhaustion (the Python loop
while True has no termination guarantee on cyclic inputs). -/
inductive TrackResult where
  | ok (track : List Nat)
  | error
  | spin
deriving DecidableEq, Repr

/-- The way-exclusion mask of check_node:
(df.way == int(current_way)) negated, or no mask when current_way is None. -/
def way_ok (currentWay : Option Nat) (r : Row) : Bool :=
  match currentWay with
  | none => true
  | some w => !(r.way == w)

/-- The Series df[mask].way of check_node: way values of the rows whose
selected column equals the current node and which pass the way exclusion,
in frame order. -/
def series_matches (df : List Row) (currentWay : Option Nat) (currentNode : Nat)
    (sel : Row → Nat) : List Nat :=
  (df.filter (fun r => sel r == currentNode && way_ok currentWay r)).map Row.way

/-- check_node of create_track_points.  First the code tests
(current_node not in df.begin): pandas membership on a Series tests the index,
and the index of df is the RangeIndex 0..len-1, so the test raises (returns
none here) exactly when currentNode < df.length.  Otherwise the matching way
Series is returned unless it is empty, which also raises. -/
def check_node (df : List Row) (currentWay : Option Nat) (currentNode : Nat)
    (sel : Row → Nat) : Option (List Nat) :=
  if currentNode < df.length then
    none
  else
    let ways := series_matches df currentWay currentNode sel
    if ways.isEmpty then none else some ways

/-- The positional index of the first row whose way column equals w:
df[df.way == int(current_way)].index[0].  none models the IndexError when no
row matches. -/
def first_index_way : List Row → Nat → Option Nat
  | [], _ => none
  | r :: rest, w =>
    if r.way == w then some 0 else (first_index_way rest w).map (· + 1)

/-- get_segment of create_track_points.  int(current_way) converts the way
Series returned by check_node to an int; pandas raises TypeError unless the
Series has exactly one element, and that exception is not caught by any
handler in create_track_points, hence none (the error path) for any other
shape. -/
def get_segment (df : List Row) (ways : List Nat) : Option Nat :=
  match ways with
  | [w] => first_index_way df w
  | _ => none

/-- get_nodes of create_track_points: a copy of nodes[current_segment],
reversed when reverse is set.  none models the IndexError on an out-of-range
segment index. -/
def get_nodes (nodes : List (List Nat)) (seg : Nat) (reverse : Bool) :
    Option (List Nat) :=
  (nodes.get? seg).map (fun l => if reverse then l.reverse else l)

/-- extend_track_points of create_track_points: in the reversed case the code
appends list_of_nodes[:-1] (all but the LAST element of the already reversed
list), otherwise list_of_nodes[1:]. -/
def extend_track_points (track : List Nat) (listOfNodes : List Nat)
    (reverse : Bool) : List Nat :=
  if reverse then track ++ listOfNodes.dropLast else track ++ listOfNodes.drop 1

/-- get_node_list of create_track_points: list_of_nodes[-1]; none models the
IndexError on an empty list. -/
def get_node_list (listOfNodes : List Nat) : Option Nat :=
  listOfNodes.getLast?

/-- One complete successful loop body after check_node has produced the way
Series: returns the next current_way (the single way value), the next
current_node and the extended track, or none when an uncaught exception
(TypeError in get_segment, IndexError in get_nodes or get_node_list) escapes. -/
def track_step (df : List Row) (nodes : List (List Nat)) (ways : List Nat)
    (reverse : Bool) (track : List Nat) : Option (Option Nat × Nat × List Nat) :=
  match get_segment df ways with
  | none => none
  | some seg =>
    match get_nodes nodes seg reverse with
    | none => none
    | some listOfNodes =>
      match get_node_list listOfNodes with
      | none => none
      | some nextNode =>
        some (ways.head?, nextNode, extend_track_points track listOfNodes reverse)

/-- The while True loop of create_track_points.  The begin search runs first;
on its caught failure the end search runs with reverse set; when both fail the
loop breaks and returns the accumulated track.  fuel bounds the number of
iterations since the Python loop has no termination guarantee. -/
def track_loop (df : List Row) (nodes : List (List Nat)) :
    Nat → Option Nat → Nat → List Nat → TrackResult
  | 0, _, _, _ => .spin
  | fuel + 1, currentWay, currentNode, track =>
    match check_node df currentWay currentNode Row.begin_ with
    | some ways =>
      match track_step df nodes ways false track with
      | none => .error
      | some (cw, cn, t) => track_loop df nodes fuel cw cn t
    | none =>
      match check_node df currentWay currentNode Row.end_ with
      | some ways =>
        match track_step df nodes ways true track with
        | none => .error
        | some (cw, cn, t) => track_loop df nodes fuel cw cn t
      | none => .ok track

/-- The body of create_track_points after get_relation_members has produced
the ways frame df and the node lists: current_way starts as None, the track
starts as [start_node]. -/
def create_track_points (df : List Row) (lNodes : List (List Nat))
    (startNode : Nat) (fuel : Nat) : TrackResult :=
  track_loop df lNodes fuel none startNode [startNode]

/-- get_way_nodes inside get_relation: the try block fetching
get_way_by_id(way['ref'])['nd'], with any exception turned into None. -/
def get_way_nodes (fetch : Nat → Option (List Nat)) (way : Member) :
    Option (List Nat) :=
  fetch way.ref

/-- get_relation_nodes inside get_relation: one forward pass over the member
list appending, for each member whose nd list is truthy (neither None nor
empty), the way id, the first node, the last node and the full node list. -/
def get_relation_nodes (fetch : Nat → Option (List Nat)) :
    List Member → List Nat × List Nat × List Nat × List (List Nat)
  | [] => ([], [], [], [])
  | way :: ways =>
    let rest := get_relation_nodes fetch ways
    match get_way_nodes fetch way with
    | some (n0 :: nds) =>
      (way.ref :: rest.1, n0 :: rest.2.1,
        (n0 :: nds).getLastD 0 :: rest.2.2.1, (n0 :: nds) :: rest.2.2.2)
    | _ => rest

/-- The row construction of get_relation:
pd.DataFrame(np.array([l_way, l_begin, l_end]).transpose()). -/
def rows_of_columns : List Nat → List Nat → List Nat → List Row
  | w :: ws, b :: bs, e :: es => ⟨w, b, e⟩ :: rows_of_columns ws bs es
  | _, _, _ => []

/-- get_relation: the ways frame and the parallel node-list collection. -/
def get_relation (fetch : Nat → Option (List Nat)) (ways : List Member) :
    List Row × List (List Nat) :=
  let cols := get_relation_nodes fetch ways
  (rows_of_columns cols.1 cols.2.1 cols.2.2.1, cols.2.2.2)

/-- skip_ways inside get_relation_members: drop the members whose role tag
equals the given value. -/
def skip_ways (ways : List Member) (role : String) : List Member :=
  ways.filter (fun w => !(w.role == role))

/-- get_relation_members: optionally filter by role, then build the frame. -/
def get_relation_members (fetch : Nat → Option (List Nat))
    (members : List Member) (skip : Bool) (role : String) :
    List Row × List (List Nat) :=
  get_relation fetch (if skip then skip_ways members role else members)

/-- create_track_points applied to a relation member list: the source function
first calls get_relation_members with its defaults (skip=True,
role=alternative) and then runs the reconstruction loop. -/
def create_track_points_of_relation (fetch : Nat → Option (List Nat))
    (members : List Member) (startNode : Nat) (fuel : Nat) : TrackResult :=
  let built := get_relation_members fetch members true "alternative"
  create_track_points built.1 built.2 startNode fuel

/-- The members surviving the best-effort fetch inside get_relation_nodes,
each paired with its nonempty nd list, in input order. -/
def surviving_members (fetch : Nat → Option (List Nat)) (ways : List Member) :
    List (Nat × List Nat) :=
  ways.filterMap (fun w =>
    match fetch w.ref with
    | some (n0 :: nds) => some (w.ref, n0 :: nds)
    | _ => none)

/-- Modelled from the spec: the lru_cache decorator applied to the lookup
functions comes from the external functools32 library, whose implementation is
not part of this repository, so the cache is modelled from the words of the
spec: a bounded keyed cache with classic least-recently-used eviction.  The
cache is a list of key-value pairs ordered most recently used first.  A hit
returns the stored value without a remote call and moves the entry to the
front; a miss calls fetch, stores the pair at the front and, when the capacity
would be exceeded, drops the last (least recently used) entry.  The returned
Bool records whether the remote source was called. -/
def lru_lookup (cap : Nat) (fetch : Nat → Nat) (cache : List (Nat × Nat))
    (k : Nat) : Nat × List (Nat × Nat) × Bool :=
  match List.lookup k cache with
  | some v => (v, (k, v) :: cache.eraseP (fun p => p.1 == k), false)
  | none =>
    let v := fetch k
    let c := (k, v) :: cache
    (v, if cap < c.length then c.dropLast else c, true)

/-- get_relation_by_id carries maxsize 128 in the source. -/
def get_relation_by_id (fetch : Nat → Nat) (cache : List (Nat × Nat))
    (relationId : Nat) : Nat × List (Nat × Nat) × Bool :=
  lru_lookup 128 fetch cache relationId

/-- get_relation_by_name carries maxsize 128 in the source; the name key is
modelled by a numeric code. -/
def get_relation_by_name (fetch : Nat → Nat) (cache : List (Nat × Nat))
    (relationName : Nat) : Nat × List (Nat × Nat) × Bool :=
  lru_lookup 128 fetch cache relationName

/-- get_way_by_id carries maxsize 2048 in the source. -/
def get_way_by_id (fetch : Nat → Nat) (cache : List (Nat × Nat))
    (wayId : Nat) : Nat × List (Nat × Nat) × Bool :=
  lru_lookup 2048 fetch cache wayId

/-- get_node_by_id carries maxsize 4096 in the source. -/
def get_node_by_id (fetch : Nat → Nat) (cache : List (Nat × Nat))
    (nodeId : Nat) : Nat × List (Nat × Nat) × Bool :=
  lru_lookup 4096 fetch cache nodeId

/-!
Heap-level rendering of the reconstruction loop, for the frame claim: Python
lists are mutable objects, so the node lists live in an explicit heap (a list
of cells addressed by position) and every list mutation of the source is a
heap write.  The writes of create_track_points are: the in-place reverse()
inside get_nodes, applied to the cell freshly allocated by the slice copy
nodes[current_segment][:], and the extend() of the track cell, freshly
allocated as [start_node].  The frame df is only ever read, so it stays a pure
parameter.
-/

/-- The heap of list cells; an address is a position. -/
abbrev Heap := List (List Nat)

/-- Read the cell at an address. -/
def heap_get (h : Heap) (a : Nat) : List Nat := h.getD a []

/-- Overwrite the cell at an address (an in-place list mutation). -/
def heap_set (h : Heap) (a : Nat) (v : List Nat) : Heap := h.set a v

/-- get_nodes at heap level: nodes[current_segment][:] allocates a fresh cell
holding a copy, and reverse() mutates that fresh cell in place. -/
def get_nodes_heap (h : Heap) (nodeRefs : List Nat) (seg : Nat)
    (reverse : Bool) : Option (Heap × Nat) :=
  match nodeRefs.get? seg with
  | none => none
  | some src =>
    let a := h.length
    let h1 := h ++ [heap_get h src]
    let h2 := if reverse then heap_set h1 a (heap_get h1 a).reverse else h1
    some (h2, a)

/-- track_points.extend(...) at heap level: an in-place write of the track
cell; the slices of list_of_nodes are value copies and mutate nothing. -/
def extend_track_points_heap (h : Heap) (trackA : Nat) (listOfNodes : List Nat)
    (reverse : Bool) : Heap :=
  heap_set h trackA (extend_track_points (heap_get h trackA) listOfNodes reverse)

/-- The reconstruction loop at heap level, threading the heap through each
iteration; the control flow mirrors track_loop exactly. -/
def track_loop_heap (df : List Row) (nodeRefs : List Nat) :
    Nat → Heap → Option Nat → Nat → Nat → Heap × TrackResult
  | 0, h, _, _, _ => (h, .spin)
  | fuel + 1, h, currentWay, currentNode, trackA =>
    match check_node df currentWay currentNode Row.begin_ with
    | some ways =>
      match get_segment df ways with
      | none => (h, .error)
      | some seg =>
        match get_nodes_heap h nodeRefs seg false with
        | none => (h, .error)
        | some (h1, a) =>
          match get_node_list (heap_get h1 a) with
          | none => (h1, .error)
          | some nextNode =>
            track_loop_heap df nodeRefs fuel
              (extend_track_points_heap h1 trackA (heap_get h1 a) false)
              ways.head? nextNode trackA
    | none =>
      match check_node df currentWay currentNode Row.end_ with
      | some ways =>
        match get_segment df ways with
        | none => (h, .error)
        | some seg =>
          match get_nodes_heap h nodeRefs seg true with
          | none => (h, .error)
          | some (h1, a) =>
            match get_node_list (heap_get h1 a) with
            | none => (h1, .error)
            | some nextNode =>
              track_loop_heap df nodeRefs fuel
                (extend_track_points_heap h1 trackA (heap_get h1 a) true)
                ways.head? nextNode trackA
      | none => (h, .ok (heap_get h trackA))
  termination_by fuel => fuel

/-- create_track_points at heap level: the input node lists occupy addresses
0..m-1 (nodes = l_nodes[:] copies the list of references, so both names alias
the same cells), and the track cell [start_node] is allocated at address m. -/
def create_track_points_heap (df : List Row) (lNodes : List (List Nat))
    (startNode : Nat) (fuel : Nat) : Heap × TrackResult :=
  let m := lNodes.length
  track_loop_heap df (List.range m) fuel (lNodes ++ [[startNode]]) none
    startNode m

/-!
Linear chains.  The spec describes the reconstructor on a valid linear chain
of segments sharing consecutive endpoints, where each segment is stored in
its native orientation: along the walk a stored sequence may run forward (its
first point is the junction reached so far) or reversed (its last point is).
chain_oriented_fromB below is that full notion.  chain_fromB is its
FORWARD-ONLY restriction: every stored sequence starts at the point where the
previous one ended.  The restriction is deliberate and load-bearing: the
positive reconstruction theorems hold only for forward-stored chains, because
on a chain containing a reversed-stored segment the code mis-stitches the
track (extend_track_points drops the wrong element of the reversed sequence;
see the C1 counterexample, second part, and the C2 and C3 evaluations), so
the spec's full chain notion is refutable there even when all point
identifiers are large.  chain_walk is the expected stitched walk and
junctions the list of shared endpoints (the current points of the loop).
chain_df builds the ways frame a chain induces, with begin and end consistent
with the stored orientation as the data model requires.
-/

/-- The point sequences form a linear chain from a point in the full sense of
the spec: each stored sequence has at least two points and, in its stored
orientation, either begins (forward) or ends (reversed) at the junction
reached so far, the walk continuing from its other extremity. -/
def chain_oriented_fromB (p : Nat) : List (List Nat) → Bool
  | [] => true
  | s :: rest =>
    Nat.ble 2 s.length
      && ((s.head? == some p) && chain_oriented_fromB (s.getLastD 0) rest
          || (s.getLast? == some p) && chain_oriented_fromB (s.headD 0) rest)

/-- The point sequences form a FORWARD-STORED linear chain from a point: the
restriction of chain_oriented_fromB in which every stored sequence runs
forward along the walk.  Only on this restriction is the reconstruction
correct (reversed-stored segments trip the extend_track_points slip). -/
def chain_fromB (p : Nat) : List (List Nat) → Bool
  | [] => true
  | s :: rest =>
    (s.head? == some p) && Nat.ble 2 s.length && chain_fromB (s.getLastD 0) rest

/-- The stitched walk of a chain: the start point followed by the tails of
the sequences in order. -/
def chain_walk (start : Nat) (ss : List (List Nat)) : List Nat :=
  start :: (ss.map (fun s => s.drop 1)).flatten

/-- The junction points of a chain: the start point followed by the last
point of each sequence; entry i is the current point when segment i is
searched for. -/
def junctions (start : Nat) (ss : List (List Nat)) : List Nat :=
  start :: ss.map (fun s => s.getLastD 0)

/-- The ways frame a chain induces: way ids paired with the first and last
point of each sequence. -/
def chain_df : List Nat → List (List Nat) → List Row
  | w :: ws, s :: rest => ⟨w, s.headD 0, s.getLastD 0⟩ :: chain_df ws rest
  | _, _ => []

theorem getLast?_eq_some_getLastD :
    ∀ (s : List Nat) (d : Nat), s ≠ [] → s.getLast? = some (s.getLastD d)
  | [_], _, _ => rfl
  | _ :: y :: t, d, _ => by
    rw [List.getLast?_cons_cons, List.getLastD_cons,
      getLast?_eq_some_getLastD (y :: t) _ (by simp)]

theorem chain_df_length :
    ∀ (ways : List Nat) (ss : List (List Nat)),
      (chain_df ways ss).length = min ways.length ss.length
  | [], [] => rfl
  | [], _ :: _ => rfl
  | _ :: _, [] => rfl
  | _ :: ws, _ :: rest => by
    simp [chain_df, chain_df_length ws rest, Nat.succ_min_succ]

theorem chain_df_getElem? :
    ∀ (ways : List Nat) (ss : List (List Nat)) (j : Nat) (w : Nat)
      (s : List Nat), ways[j]? = some w → ss[j]? = some s →
      (chain_df ways ss)[j]? = some ⟨w, s.headD 0, s.getLastD 0⟩
  | v :: ws, t :: rest, 0, w, s => by
    intro hw hs
    simp only [List.getElem?_cons_zero, Option.some.injEq] at hw hs
    simp [chain_df, hw, hs]
  | v :: ws, t :: rest, j + 1, w, s => by
    intro hw hs
    simp only [List.getElem?_cons_succ] at hw hs
    simpa [chain_df] using chain_df_getElem? ws rest j w s hw hs
  | [], _, j, w, s => by intro hw _; simp at hw
  | _ :: _, [], j, w, s => by intro _ hs; simp at hs

theorem chain_cons_iff (p : Nat) (s : List Nat) (rest : List (List Nat)) :
    chain_fromB p (s :: rest) = true ↔
      s.head? = some p ∧ 2 ≤ s.length ∧ chain_fromB (s.getLastD 0) rest = true := by
  simp [chain_fromB, Nat.ble_eq, and_assoc]

theorem chain_two :
    ∀ (ss : List (List Nat)) (p : Nat), chain_fromB p ss = true →
      ∀ s ∈ ss, 2 ≤ s.length
  | [], _, _ => by intro s hs; simp at hs
  | t :: rest, p, h => by
    rcases (chain_cons_iff p t rest).1 h with ⟨_, h2, h3⟩
    intro s hs
    rcases List.mem_cons.1 hs with rfl | hs
    · exact h2
    · exact chain_two rest (t.getLastD 0) h3 s hs

theorem junctions_getD_succ (start : Nat) (ss : List (List Nat)) (i : Nat)
    (hi : i < ss.length) :
    (junctions start ss).getD (i + 1) 0 = (ss.getD i []).getLastD 0 := by
  rw [show junctions start ss = start :: ss.map (fun s => s.getLastD 0) from rfl,
    List.getD_cons_succ, List.getD_eq_getElem _ _ (by simpa using hi),
    List.getElem_map, List.getD_eq_getElem _ _ hi]

theorem chain_head_getD :
    ∀ (ss : List (List Nat)) (start i : Nat), i < ss.length →
      chain_fromB start ss = true →
      (ss.getD i []).head? = some ((junctions start ss).getD i 0)
  | t :: rest, start, 0, _, h => by
    rcases (chain_cons_iff start t rest).1 h with ⟨h1, _, _⟩
    simpa [junctions] using h1
  | t :: rest, start, i + 1, hi, h => by
    rcases (chain_cons_iff start t rest).1 h with ⟨_, _, h3⟩
    have := chain_head_getD rest (t.getLastD 0) i (by simpa using hi) h3
    simpa [junctions] using this

theorem chain_last_getD :
    ∀ (ss : List (List Nat)) (start i : Nat), i < ss.length →
      chain_fromB start ss = true →
      (ss.getD i []).getLast? = some ((junctions start ss).getD (i + 1) 0)
  | t :: rest, start, 0, _, h => by
    rcases (chain_cons_iff start t rest).1 h with ⟨_, h2, _⟩
    have hne : t ≠ [] := by
      intro he; rw [he] at h2; simp at h2
    rw [junctions_getD_succ start (t :: rest) 0 (by simp)]
    simpa using getLast?_eq_some_getLastD t 0 hne
  | t :: rest, start, i + 1, hi, h => by
    rcases (chain_cons_iff start t rest).1 h with ⟨_, _, h3⟩
    have ih := chain_last_getD rest (t.getLastD 0) i (by simpa using hi) h3
    rw [junctions_getD_succ start (t :: rest) (i + 1) hi]
    rw [junctions_getD_succ (t.getLastD 0) rest i (by simpa using hi)] at ih
    simpa using ih

theorem getLastD_irrel (s : List Nat) (d d2 : Nat) (h : s ≠ []) :
    s.getLastD d = s.getLastD d2 := by
  have h1 := getLast?_eq_some_getLastD s d h
  have h2 := getLast?_eq_some_getLastD s d2 h
  rw [h1] at h2
  exact Option.some.inj h2

theorem getLastD_drop_one (s : List Nat) (h : 2 ≤ s.length) :
    (s.drop 1).getLastD 0 = s.getLastD 0 := by
  match s, h with
  | x :: y :: t, _ =>
    show (y :: t).getLastD 0 = (x :: y :: t).getLastD 0
    nth_rewrite 2 [List.getLastD_cons]
    exact getLastD_irrel (y :: t) 0 x (by simp)

theorem junctions_sublist_walk :
    ∀ (ss : List (List Nat)) (start : Nat), chain_fromB start ss = true →
      (junctions start ss).Sublist (chain_walk start ss)
  | [], start, _ => by simp [junctions, chain_walk]
  | t :: rest, start, h => by
    rcases (chain_cons_iff start t rest).1 h with ⟨_, h2, h3⟩
    have ih := junctions_sublist_walk rest (t.getLastD 0) h3
    have hwalk : chain_walk start (t :: rest)
        = start :: (t.drop 1 ++ (rest.map (fun s => s.drop 1)).flatten) := by
      simp [chain_walk]
    have hjun : junctions start (t :: rest)
        = start :: junctions (t.getLastD 0) rest := by
      simp [junctions]
    rw [hwalk, hjun]
    apply List.Sublist.cons₂
    have hdrop : t.drop 1 ≠ [] := by
      intro he
      have := congrArg List.length he
      simp at this
      omega
    have hlast : (t.drop 1).getLast? = some (t.getLastD 0) := by
      rw [getLast?_eq_some_getLastD (t.drop 1) 0 hdrop, getLastD_drop_one t h2]
    have hsplit : (t.drop 1).dropLast ++ [t.getLastD 0] = t.drop 1 :=
      List.dropLast_append_getLast? _ hlast
    rw [← hsplit, List.append_assoc]
    have hmid : List.Sublist (junctions (t.getLastD 0) rest)
        ([t.getLastD 0] ++ (rest.map (fun s => s.drop 1)).flatten) := by
      simpa [junctions, chain_walk] using ih
    exact hmid.trans (List.sublist_append_right _ _)

theorem junctions_length (start : Nat) (ss : List (List Nat)) :
    (junctions start ss).length = ss.length + 1 := by
  simp [junctions]

theorem junctions_nodup (start : Nat) (ss : List (List Nat))
    (hch : chain_fromB start ss = true)
    (hw : (chain_walk start ss).Nodup) : (junctions start ss).Nodup :=
  (junctions_sublist_walk ss start hch).nodup hw

theorem junctions_getD_mem (start : Nat) (ss : List (List Nat)) (i : Nat)
    (hch : chain_fromB start ss = true) (hi : i < ss.length + 1) :
    (junctions start ss).getD i 0 ∈ chain_walk start ss := by
  have hlen := junctions_length start ss
  have hmem : (junctions start ss).getD i 0 ∈ junctions start ss := by
    rw [List.getD_eq_getElem _ _ (by omega)]
    exact List.getElem_mem _
  exact (junctions_sublist_walk ss start hch).subset hmem

theorem nodup_getD_inj (l : List Nat) (hl : l.Nodup) (i j : Nat)
    (hi : i < l.length) (hj : j < l.length)
    (h : l.getD i 0 = l.getD j 0) : i = j := by
  rw [List.getD_eq_getElem _ _ hi, List.getD_eq_getElem _ _ hj] at h
  exact (List.Nodup.getElem_inj_iff hl).1 h

theorem filter_eq_singleton_of_unique {α : Type} :
    ∀ (l : List α) (p : α → Bool) (i : Nat) (hi : i < l.length),
      (∀ j (hj : j < l.length), p l[j] = true ↔ j = i) →
      l.filter p = [l[i]]
  | [], _, i, hi, _ => by simp at hi
  | a :: t, p, 0, _, h => by
    have hpa : p a = true := by simpa using (h 0 (by simp)).2 rfl
    have ht : t.filter p = [] := by
      rw [List.filter_eq_nil_iff]
      intro x hx hpx
      rcases List.mem_iff_getElem.1 hx with ⟨j, hj, rfl⟩
      have := (h (j + 1) (by simpa using Nat.succ_lt_succ hj)).1 (by simpa using hpx)
      omega
    simp [List.filter_cons, hpa, ht]
  | a :: t, p, i + 1, hi, h => by
    have hpa : p a = false := by
      have h0 := h 0 (by simp)
      simp only [List.getElem_cons_zero] at h0
      rcases hv : p a
      · rfl
      · exact absurd (h0.1 hv) (by omega)
    have ih := filter_eq_singleton_of_unique t p i
      (by simpa using Nat.lt_of_succ_lt_succ hi)
      (fun j hj => by
        have := h (j + 1) (by simpa using Nat.succ_lt_succ hj)
        simpa [Nat.succ_inj] using this)
    simp [List.filter_cons, hpa, ih, List.getElem_cons_succ]

theorem first_index_way_eq_some :
    ∀ (df : List Row) (w : Nat) (i : Nat) (hi : i < df.length),
      (∀ j (hj : j < df.length), j < i → ¬ df[j].way = w) →
      df[i].way = w →
      first_index_way df w = some i
  | [], _, i, hi, _, _ => by simp at hi
  | r :: rest, w, 0, _, _, hw => by
    simp only [List.getElem_cons_zero] at hw
    simp [first_index_way, hw]
  | r :: rest, w, i + 1, hi, hfirst, hw => by
    have hr : ¬ r.way = w := by simpa using hfirst 0 (by simp) (by omega)
    have ih := first_index_way_eq_some rest w i
      (by simpa using Nat.lt_of_succ_lt_succ hi)
      (fun j hj hji => by
        simpa using hfirst (j + 1) (by simpa using Nat.succ_lt_succ hj) (by omega))
      (by simpa using hw)
    simp [first_index_way, hr, ih]

/-- The last used way before segment i is searched for: None before the first
step, afterwards the way id of the previous segment. -/
def chain_prev_way (ways : List Nat) (i : Nat) : Option Nat :=
  if i = 0 then none else some (ways.getD (i - 1) 0)

/-- The accumulated track when segment i is searched for: the start point
followed by the tails of the first i sequences. -/
def chain_track (start : Nat) (ss : List (List Nat)) (i : Nat) : List Nat :=
  start :: ((ss.take i).map (fun s => s.drop 1)).flatten

theorem chain_track_zero (start : Nat) (ss : List (List Nat)) :
    chain_track start ss 0 = [start] := rfl

theorem chain_track_full (start : Nat) (ss : List (List Nat)) :
    chain_track start ss ss.length = chain_walk start ss := by
  unfold chain_track chain_walk
  rw [List.take_length]

theorem ways_getD_ne (ways : List Nat) (hynd : ways.Nodup) (i j : Nat)
    (hi : i < ways.length) (hj : j < ways.length) (hne : i ≠ j) :
    ways.getD i 0 ≠ ways.getD j 0 := by
  intro h
  exact hne (nodup_getD_inj ways hynd i j hi hj h)

theorem junction_ne (start : Nat) (ss : List (List Nat))
    (hch : chain_fromB start ss = true) (hwnd : (chain_walk start ss).Nodup)
    (i j : Nat) (hi : i ≤ ss.length) (hj : j ≤ ss.length) (hne : i ≠ j) :
    (junctions start ss).getD i 0 ≠ (junctions start ss).getD j 0 := by
  intro h
  refine hne (nodup_getD_inj _ (junctions_nodup start ss hch hwnd) i j ?_ ?_ h)
  · rw [junctions_length]; omega
  · rw [junctions_length]; omega

theorem junction_big (start : Nat) (ss : List (List Nat)) (i : Nat)
    (hch : chain_fromB start ss = true)
    (hbig : ∀ p ∈ chain_walk start ss, ss.length ≤ p) (hi : i ≤ ss.length) :
    ss.length ≤ (junctions start ss).getD i 0 :=
  hbig _ (junctions_getD_mem start ss i hch (by omega))

theorem chain_df_len (ways : List Nat) (ss : List (List Nat))
    (hlen : ways.length = ss.length) :
    (chain_df ways ss).length = ss.length := by
  rw [chain_df_length, hlen, Nat.min_self]

theorem chain_df_getElem (ways : List Nat) (ss : List (List Nat)) (start : Nat)
    (hlen : ways.length = ss.length) (hch : chain_fromB start ss = true)
    (j : Nat) (hj : j < (chain_df ways ss).length) :
    (chain_df ways ss)[j] = ⟨ways.getD j 0, (junctions start ss).getD j 0,
      (junctions start ss).getD (j + 1) 0⟩ := by
  have hjN : j < ss.length := by rwa [chain_df_len ways ss hlen] at hj
  have hw : ways[j]? = some (ways.getD j 0) := by
    rw [List.getElem?_eq_getElem (by omega), List.getD_eq_getElem _ _ (by omega)]
  have hs : ss[j]? = some (ss.getD j []) := by
    rw [List.getElem?_eq_getElem (by omega), List.getD_eq_getElem _ _ (by omega)]
  have hrow := chain_df_getElem? ways ss j _ _ hw hs
  rw [List.getElem?_eq_getElem hj] at hrow
  have hhead : (ss.getD j []).headD 0 = (junctions start ss).getD j 0 := by
    have h1 := chain_head_getD ss start j hjN hch
    rcases hnd : ss.getD j [] with _ | ⟨a, t⟩
    · rw [hnd] at h1; simp at h1
    · rw [hnd] at h1
      simp only [List.head?_cons, Option.some.injEq] at h1
      simpa using h1
  have hlast : (ss.getD j []).getLastD 0 = (junctions start ss).getD (j + 1) 0 :=
    (junctions_getD_succ start ss j hjN).symm
  rw [Option.some.injEq] at hrow
  rw [hrow, hhead, hlast]

theorem chain_check_begin (ways : List Nat) (ss : List (List Nat)) (start : Nat)
    (hlen : ways.length = ss.length) (hch : chain_fromB start ss = true)
    (hwnd : (chain_walk start ss).Nodup) (hynd : ways.Nodup)
    (hbig : ∀ p ∈ chain_walk start ss, ss.length ≤ p)
    (i : Nat) (hi : i < ss.length) :
    check_node (chain_df ways ss) (chain_prev_way ways i)
      ((junctions start ss).getD i 0) Row.begin_ = some [ways.getD i 0] := by
  have hidf : i < (chain_df ways ss).length := by rw [chain_df_len ways ss hlen]; exact hi
  have hself : ∀ j (hj : j < (chain_df ways ss).length),
      (Row.begin_ (chain_df ways ss)[j] == (junctions start ss).getD i 0
        && way_ok (chain_prev_way ways i) (chain_df ways ss)[j]) = true ↔ j = i := by
    intro j hj
    have hjN : j < ss.length := by rwa [chain_df_len ways ss hlen] at hj
    rw [chain_df_getElem ways ss start hlen hch j hj]
    constructor
    · intro hp
      rcases Bool.and_eq_true_iff.mp hp with ⟨hb, _⟩
      by_contra hne
      exact junction_ne start ss hch hwnd j i (by omega) (by omega) hne
        (by simpa using hb)
    · rintro rfl
      refine Bool.and_eq_true_iff.mpr ⟨by simp, ?_⟩
      unfold way_ok chain_prev_way
      rcases hj0 : j with _ | j0
      · rfl
      · simp only [if_neg (Nat.succ_ne_zero j0)]
        have hne : ways.getD (j0 + 1) 0 ≠ ways.getD (j0 + 1 - 1) 0 := by
          apply ways_getD_ne ways hynd _ _ (by omega) (by omega) (by omega)
        simpa using hne
  have hfilter := filter_eq_singleton_of_unique (chain_df ways ss)
    (fun r => Row.begin_ r == (junctions start ss).getD i 0
      && way_ok (chain_prev_way ways i) r) i hidf hself
  have hsm : series_matches (chain_df ways ss) (chain_prev_way ways i)
      ((junctions start ss).getD i 0) Row.begin_ = [ways.getD i 0] := by
    unfold series_matches
    rw [hfilter, chain_df_getElem ways ss start hlen hch i hidf]
    rfl
  unfold check_node
  rw [if_neg, hsm]
  · rfl
  · rw [chain_df_len ways ss hlen]
    exact Nat.not_lt.mpr (junction_big start ss i hch hbig (by omega))

theorem chain_check_begin_none (ways : List Nat) (ss : List (List Nat))
    (start : Nat) (hlen : ways.length = ss.length)
    (hch : chain_fromB start ss = true) (hwnd : (chain_walk start ss).Nodup)
    (hbig : ∀ p ∈ chain_walk start ss, ss.length ≤ p) :
    check_node (chain_df ways ss) (chain_prev_way ways ss.length)
      ((junctions start ss).getD ss.length 0) Row.begin_ = none := by
  have hsm : series_matches (chain_df ways ss) (chain_prev_way ways ss.length)
      ((junctions start ss).getD ss.length 0) Row.begin_ = [] := by
    unfold series_matches
    rw [List.filter_eq_nil_iff.mpr, List.map_nil]
    intro r hr
    rcases List.mem_iff_getElem.1 hr with ⟨j, hj, rfl⟩
    have hjN : j < ss.length := by rwa [chain_df_len ways ss hlen] at hj
    rw [chain_df_getElem ways ss start hlen hch j hj]
    intro hp
    rcases Bool.and_eq_true_iff.mp hp with ⟨hb, _⟩
    exact junction_ne start ss hch hwnd j ss.length (by omega) (by omega)
      (by omega) (by simpa using hb)
  unfold check_node
  rw [if_neg, hsm]
  · rfl
  · rw [chain_df_len ways ss hlen]
    exact Nat.not_lt.mpr (junction_big start ss ss.length hch hbig (by omega))

theorem chain_check_end_none (ways : List Nat) (ss : List (List Nat))
    (start : Nat) (hlen : ways.length = ss.length)
    (hch : chain_fromB start ss = true) (hwnd : (chain_walk start ss).Nodup)
    (hbig : ∀ p ∈ chain_walk start ss, ss.length ≤ p) :
    check_node (chain_df ways ss) (chain_prev_way ways ss.length)
      ((junctions start ss).getD ss.length 0) Row.end_ = none := by
  have hsm : series_matches (chain_df ways ss) (chain_prev_way ways ss.length)
      ((junctions start ss).getD ss.length 0) Row.end_ = [] := by
    unfold series_matches
    rw [List.filter_eq_nil_iff.mpr, List.map_nil]
    intro r hr
    rcases List.mem_iff_getElem.1 hr with ⟨j, hj, rfl⟩
    have hjN : j < ss.length := by rwa [chain_df_len ways ss hlen] at hj
    rw [chain_df_getElem ways ss start hlen hch j hj]
    intro hp
    rcases Bool.and_eq_true_iff.mp hp with ⟨hb, hw⟩
    rcases Nat.lt_or_ge (j + 1) ss.length with hlt | hge
    · exact junction_ne start ss hch hwnd (j + 1) ss.length (by omega) (by omega)
        (by omega) (by simpa using hb)
    · have hjeq : j = ss.length - 1 := by omega
      unfold way_ok chain_prev_way at hw
      have hN0 : ss.length ≠ 0 := by omega
      rw [if_neg hN0] at hw
      rw [hjeq] at hw
      simp at hw
  unfold check_node
  rw [if_neg, hsm]
  · rfl
  · rw [chain_df_len ways ss hlen]
    exact Nat.not_lt.mpr (junction_big start ss ss.length hch hbig (by omega))

theorem chain_track_step (ways : List Nat) (ss : List (List Nat)) (start : Nat)
    (hlen : ways.length = ss.length) (hch : chain_fromB start ss = true)
    (hynd : ways.Nodup) (i : Nat) (hi : i < ss.length) :
    track_step (chain_df ways ss) ss [ways.getD i 0] false
      (chain_track start ss i)
    = some (some (ways.getD i 0), (junctions start ss).getD (i + 1) 0,
        chain_track start ss (i + 1)) := by
  have hidf : i < (chain_df ways ss).length := by rw [chain_df_len ways ss hlen]; exact hi
  have hseg : get_segment (chain_df ways ss) [ways.getD i 0] = some i := by
    unfold get_segment
    apply first_index_way_eq_some _ _ i hidf
    · intro j hj hji
      have hjN : j < ss.length := by rwa [chain_df_len ways ss hlen] at hj
      rw [chain_df_getElem ways ss start hlen hch j hj]
      exact ways_getD_ne ways hynd j i (by omega) (by omega) (by omega)
    · rw [chain_df_getElem ways ss start hlen hch i hidf]
  have hget : get_nodes ss i false = some (ss.getD i []) := by
    unfold get_nodes
    rw [List.get?_eq_getElem?, List.getElem?_eq_getElem (by omega),
      List.getD_eq_getElem _ _ (by omega)]
    rfl
  have hlast : get_node_list (ss.getD i [])
      = some ((junctions start ss).getD (i + 1) 0) :=
    chain_last_getD ss start i hi hch
  have htake : ss.take (i + 1) = ss.take i ++ [ss.getD i []] := by
    rw [List.take_succ, List.getElem?_eq_getElem (by omega),
      List.getD_eq_getElem _ _ (by omega)]
    rfl
  have htrack : extend_track_points (chain_track start ss i) (ss.getD i []) false
      = chain_track start ss (i + 1) := by
    unfold extend_track_points chain_track
    rw [htake, List.map_append, List.flatten_append]
    simp
  unfold track_step
  rw [hseg]
  simp only [hget, hlast, htrack, List.head?_cons]

theorem track_loop_chain_aux (ways : List Nat) (ss : List (List Nat))
    (start : Nat) (hlen : ways.length = ss.length)
    (hch : chain_fromB start ss = true) (hwnd : (chain_walk start ss).Nodup)
    (hynd : ways.Nodup) (hbig : ∀ p ∈ chain_walk start ss, ss.length ≤ p) :
    ∀ (r i fuel : Nat), i + r = ss.length → r < fuel →
      track_loop (chain_df ways ss) ss fuel (chain_prev_way ways i)
        ((junctions start ss).getD i 0) (chain_track start ss i)
      = .ok (chain_walk start ss) := by
  intro r
  induction r with
  | zero =>
    intro i fuel hiN hfuel
    rcases fuel with _ | f
    · omega
    have hi : i = ss.length := by omega
    subst hi
    rw [track_loop, chain_check_begin_none ways ss start hlen hch hwnd hbig]
    simp only [chain_check_end_none ways ss start hlen hch hwnd hbig,
      chain_track_full]
  | succ r ih =>
    intro i fuel hiN hfuel
    rcases fuel with _ | f
    · omega
    have hi : i < ss.length := by omega
    rw [track_loop, chain_check_begin ways ss start hlen hch hwnd hynd hbig i hi]
    simp only [chain_track_step ways ss start hlen hch hynd i hi]
    have hprev : some (ways.getD i 0) = chain_prev_way ways (i + 1) := by
      simp [chain_prev_way]
    rw [hprev]
    exact ih (i + 1) f (by omega) (by omega)

/-- The walk of a valid forward linear chain: starting from the true end, the
reconstruction loop returns exactly the stitched walk, provided every point
identifier is at least the number of table rows (so that the pandas
index-membership test in check_node never fires). -/
theorem track_chain_walk (ways : List Nat) (ss : List (List Nat)) (start : Nat)
    (fuel : Nat) (hlen : ways.length = ss.length)
    (hch : chain_fromB start ss = true) (hwnd : (chain_walk start ss).Nodup)
    (hynd : ways.Nodup) (hbig : ∀ p ∈ chain_walk start ss, ss.length ≤ p)
    (hfuel : ss.length < fuel) :
    create_track_points (chain_df ways ss) ss start fuel
      = .ok (chain_walk start ss) := by
  have h0 := track_loop_chain_aux ways ss start hlen hch hwnd hynd hbig
    ss.length 0 fuel (by omega) hfuel
  rw [show chain_prev_way ways 0 = none from rfl,
    show (junctions start ss).getD 0 0 = start from rfl,
    chain_track_zero] at h0
  exact h0

theorem chain_walk_mem (start : Nat) (ss : List (List Nat))
    (hch : chain_fromB start ss = true) (p : Nat) :
    p ∈ chain_walk start ss ↔ p = start ∨ ∃ s ∈ ss, p ∈ s := by
  constructor
  · intro hp
    rcases List.mem_cons.1 hp with rfl | hp
    · exact Or.inl rfl
    · rcases List.mem_flatten.1 hp with ⟨t, ht, hpt⟩
      rcases List.mem_map.1 ht with ⟨s, hs, rfl⟩
      exact Or.inr ⟨s, hs, List.mem_of_mem_drop hpt⟩
  · intro hp
    rcases hp with rfl | ⟨s, hs, hps⟩
    · exact List.mem_cons_self _ _
    · rcases List.mem_iff_getElem.1 hs with ⟨i, hi, rfl⟩
      have hhead := chain_head_getD ss start i hi hch
      have hgd : ss.getD i [] = ss[i] := List.getD_eq_getElem _ _ hi
      rcases hsi : ss[i] with _ | ⟨a, t⟩
      · rw [hsi] at hps; simp at hps
      · rw [hsi] at hps
        rcases List.mem_cons.1 hps with rfl | hpt
        · have hpj : some p = some ((junctions start ss).getD i 0) := by
            rw [← hhead, hgd, hsi]; rfl
          rw [Option.some.injEq] at hpj
          rw [hpj]
          exact junctions_getD_mem start ss i hch (by omega)
        · apply List.mem_cons_of_mem
          apply List.mem_flatten.2
          refine ⟨ss[i].drop 1, List.mem_map.2 ⟨ss[i], List.getElem_mem _, rfl⟩, ?_⟩
          rw [hsi]
          simpa using hpt

/-- C1 (amended): for every valid linear chain RESTRICTED in two ways (every
segment stored forward along the walk, hypothesis hch via chain_fromB, and
every point identifier at least the number of table rows, hypothesis hbig),
reconstructing from the true end returns exactly the stitched walk, the walk
repeats no point, and it contains exactly the start point together with every
point of every chain segment.  Both restrictions are forced by the code, one
counterexample each (C1 counterexample, parts 1 and 2): hbig because the
pandas index-membership test in check_node terminates the walk early whenever
the current point is a valid positional index of the frame, and the
forward-only hch because a chain containing a reversed-stored segment is
mis-stitched by the extend_track_points slip (the claim fails there even with
all identifiers large, the bug recorded under C2 and C3). -/
theorem C1_chain_reconstruction (ways : List Nat) (ss : List (List Nat))
    (start fuel : Nat) (hlen : ways.length = ss.length)
    (hch : chain_fromB start ss = true) (hwnd : (chain_walk start ss).Nodup)
    (hynd : ways.Nodup) (hbig : ∀ p ∈ chain_walk start ss, ss.length ≤ p)
    (hfuel : ss.length < fuel) :
    create_track_points (chain_df ways ss) ss start fuel
      = .ok (chain_walk start ss)
    ∧ (chain_walk start ss).Nodup
    ∧ ∀ p, p ∈ chain_walk start ss ↔ p = start ∨ ∃ s ∈ ss, p ∈ s :=
  ⟨track_chain_walk ways ss start fuel hlen hch hwnd hynd hbig hfuel,
    hwnd, fun p => chain_walk_mem start ss hch p⟩

/-- C1 witness: a concrete three-segment chain with large point ids,
reconstructed completely. -/
theorem C1_chain_reconstruction_witness :
    create_track_points
        (chain_df [11, 12, 13] [[100, 101, 102], [102, 103], [103, 104, 105]])
        [[100, 101, 102], [102, 103], [103, 104, 105]] 100 9
      = .ok (chain_walk 100 [[100, 101, 102], [102, 103], [103, 104, 105]]) :=
  (C1_chain_reconstruction [11, 12, 13]
    [[100, 101, 102], [102, 103], [103, 104, 105]] 100 9 (by decide) (by decide)
    (by decide) (by decide) (by decide) (by decide)).1

/-- C1 counterexample, refuting the claim as stated in two independent ways.
Part 1 (small identifiers): the one-segment forward chain [[0, 1]] is valid
and its walk is [0, 1], yet reconstruction from its true end 0 returns only
[0], missing chain point 1: point 0 is a valid row position of the one-row
frame, so the pandas index-membership test in check_node fires and the loop
stops immediately.  Part 2 (reversed-stored segment): the two-segment chain
[[100, 101], [102, 101]] is valid in the spec's full sense (the second
segment is stored reversed, sharing endpoint 101), every identifier is at
least the row count 2, yet reconstruction from the true end 100 returns
[100, 101, 101]: the junction is repeated and chain point 102 is missing
(the extend_track_points slip of C2 and C3), so even a point-size bound alone
cannot repair the claim: the forward-storage restriction is also needed. -/
theorem C1_chain_counterexamples :
    (chain_fromB 0 [[0, 1]] = true
      ∧ (chain_walk 0 [[0, 1]]).Nodup
      ∧ chain_walk 0 [[0, 1]] = [0, 1]
      ∧ create_track_points (chain_df [5] [[0, 1]]) [[0, 1]] 0 5 = .ok [0]
      ∧ ¬ ((1 : Nat) ∈ [(0 : Nat)]))
    ∧ (chain_oriented_fromB 100 [[100, 101], [102, 101]] = true
      ∧ create_track_points (chain_df [11, 12] [[100, 101], [102, 101]])
          [[100, 101], [102, 101]] 100 10
        = .ok [100, 101, 101]
      ∧ ¬ ((102 : Nat) ∈ [100, 101, 101])) := by decide

/-- C2: evaluation at the failing input.  A single reversed segment [20, 21]
entered from its end point 21 yields the track [21, 21]: the junction 21 is
repeated immediately and the far endpoint 20 never enters the track, because
extend_track_points appends all but the LAST element of the already reversed
sequence instead of all but the first.  The claim (append everything except
the first element of the traversed sequence, hence no immediate repetition)
describes the clear intent; the code slips. -/
theorem C2_reversed_append_bug :
    create_track_points [⟨7, 20, 21⟩] [[20, 21]] 21 10 = .ok [21, 21]
    ∧ [21, 21] ≠ [21, 20] := by decide

/-- C3: evaluation at the spec scenario W1 [A,B,C], W2 [C,D], W3 [E,D] with
A..E rendered as 100..104 and way ids 11, 12, 13.  The code returns
[A, B, C, D, D] instead of the expected [A, B, C, D, E]: W3 is indeed consumed
in reversed orientation, but the reversed append drops E and repeats D. -/
theorem C3_three_segment_scenario :
    create_track_points [⟨11, 100, 102⟩, ⟨12, 102, 103⟩, ⟨13, 104, 103⟩]
        [[100, 101, 102], [102, 103], [104, 103]] 100 10
      = .ok [100, 101, 102, 103, 103]
    ∧ [100, 101, 102, 103, 103] ≠ [100, 101, 102, 103, 104] := by decide

/-- C4 (amended): when the current point matches SEVERAL candidate rows, the
walk does not continue with the first row in table order: get_segment applies
int() to the multi-element way Series, which raises an uncaught TypeError, so
reconstruction fails; the walk only ever continues when the match is unique. -/
theorem C4_multi_match_errors (df : List Row) (lNodes : List (List Nat))
    (cw : Option Nat) (cn : Nat) (track : List Nat) (fuel : Nat)
    (ws : List Nat) (hmulti : 2 ≤ ws.length)
    (hsel : check_node df cw cn Row.begin_ = some ws
      ∨ (check_node df cw cn Row.begin_ = none
          ∧ check_node df cw cn Row.end_ = some ws)) :
    track_loop df lNodes (fuel + 1) cw cn track = .error := by
  have hstep : ∀ rev, track_step df lNodes ws rev track = none := by
    intro rev
    match ws, hmulti with
    | a :: b :: t, _ => rfl
  rcases hsel with hb | ⟨hb, he⟩
  · rw [track_loop, hb]
    simp only [hstep]
  · rw [track_loop, hb]
    simp only [he, hstep]

/-- C4 witness: a two-way branch at the current point, hitting the error. -/
theorem C4_multi_match_errors_witness :
    track_loop [⟨5, 10, 11⟩, ⟨6, 10, 12⟩] [[10, 11], [10, 12]] 3 none 10 [10]
      = .error :=
  C4_multi_match_errors [⟨5, 10, 11⟩, ⟨6, 10, 12⟩] [[10, 11], [10, 12]]
    none 10 [10] 2 [5, 6] (by decide) (Or.inl (by decide))

/-- C4 counterexample: a junction point (10) matching two unused candidate
segments (ways 5 and 6).  The claim says the earlier row (way 5) is taken and
the walk continues with it, which would return the track [10, 11]; the code
instead raises an uncaught TypeError. -/
theorem C4_branch_counterexample :
    create_track_points [⟨5, 10, 11⟩, ⟨6, 10, 12⟩] [[10, 11], [10, 12]] 10 10
      = .error
    ∧ TrackResult.error ≠ .ok [10, 11] := by decide

/-- C5 (amended): absence of a further matching row is indeed a normal
termination returning the accumulated track; the loop breaks and no exception
escapes on that path. -/
theorem C5_no_match_terminates (df : List Row) (lNodes : List (List Nat))
    (cw : Option Nat) (cn : Nat) (track : List Nat) (fuel : Nat)
    (hb : check_node df cw cn Row.begin_ = none)
    (he : check_node df cw cn Row.end_ = none) :
    track_loop df lNodes (fuel + 1) cw cn track = .ok track := by
  rw [track_loop, hb]
  simp only [he]

/-- C5 witness: a current point matching nothing terminates normally. -/
theorem C5_no_match_terminates_witness :
    track_loop [⟨5, 10, 11⟩] [[10, 11]] 1 none 99 [99] = .ok [99] :=
  C5_no_match_terminates [⟨5, 10, 11⟩] [[10, 11]] none 99 [99] 0
    (by decide) (by decide)

/-- C5 counterexample: reconstruction is NOT error free for every edge table,
point-sequence list and start point: with two rows both ending at the start
point 10, the end search matches both, and int() applied to the two-element
way Series raises an uncaught TypeError. -/
theorem C5_uncaught_error_counterexample :
    create_track_points [⟨5, 11, 10⟩, ⟨6, 12, 10⟩] [[11, 10], [12, 10]] 10 10
      = .error := by decide

/-- C9: reconstructing from an empty edge table returns exactly the
one-element track, for every start point and any point-sequence list:
both searches fail on an empty frame and the loop terminates at once. -/
theorem C9_empty_table (startNode : Nat) (lNodes : List (List Nat))
    (fuel : Nat) (hfuel : 1 ≤ fuel) :
    create_track_points [] lNodes startNode fuel = .ok [startNode] := by
  rcases fuel with _ | f
  · omega
  unfold create_track_points
  rw [track_loop]
  rfl

/-- C9 witness: the empty table at a concrete start point. -/
theorem C9_empty_table_witness :
    create_track_points [] [] 42 1 = .ok [42] :=
  C9_empty_table 42 [] 1 (by decide)

theorem take_set_of_le {α : Type} :
    ∀ (l : List α) (i : Nat) (v : α) (m : Nat), m ≤ i →
      (l.set i v).take m = l.take m
  | [], _, _, _, _ => by simp
  | a :: t, 0, v, m, h => by
    have hm : m = 0 := Nat.le_zero.1 h
    subst hm
    simp
  | a :: t, i + 1, v, 0, _ => by simp
  | a :: t, i + 1, v, m + 1, h => by
    simp only [List.set_cons_succ, List.take_succ_cons]
    rw [take_set_of_le t i v m (by omega)]

theorem get_nodes_heap_frame (h : Heap) (nodeRefs : List Nat) (seg : Nat)
    (rev : Bool) (m : Nat) (hm : m ≤ h.length) (h2 : Heap) (a : Nat)
    (hres : get_nodes_heap h nodeRefs seg rev = some (h2, a)) :
    h2.take m = h.take m ∧ m ≤ h2.length ∧ h.length ≤ a := by
  unfold get_nodes_heap at hres
  rcases hsrc : nodeRefs.get? seg with _ | src
  · rw [hsrc] at hres
    exact absurd hres (by simp)
  · rw [hsrc] at hres
    simp only [Option.some.injEq, Prod.mk.injEq] at hres
    rcases hres with ⟨hh2, ha⟩
    have htk : (h ++ [heap_get h src]).take m = h.take m := by
      rw [List.take_append_of_le_length hm]
    have hln : (h ++ [heap_get h src]).length = h.length + 1 := by simp
    rcases rev
    · simp only [Bool.false_eq_true, if_false] at hh2
      subst hh2
      exact ⟨htk, by omega, by omega⟩
    · simp only [if_true] at hh2
      subst hh2
      unfold heap_set
      constructor
      · rw [take_set_of_le _ _ _ m (by omega), htk]
      · constructor
        · rw [List.length_set]
          omega
        · omega

theorem track_loop_heap_frame (df : List Row) (nodeRefs : List Nat) (m : Nat) :
    ∀ (fuel : Nat) (h : Heap) (cw : Option Nat) (cn : Nat) (trackA : Nat),
      m ≤ h.length → m ≤ trackA →
      (track_loop_heap df nodeRefs fuel h cw cn trackA).1.take m = h.take m := by
  intro fuel
  induction fuel with
  | zero =>
    intro h cw cn trackA _ _
    simp [track_loop_heap]
  | succ f ih =>
    intro h cw cn trackA hm htr
    rcases hb : check_node df cw cn Row.begin_ with _ | ws
    · rcases he : check_node df cw cn Row.end_ with _ | ws
      · simp [track_loop_heap, hb, he]
      · rcases hseg : get_segment df ws with _ | seg
        · simp [track_loop_heap, hb, he, hseg]
        · rcases hgn : get_nodes_heap h nodeRefs seg true with _ | ⟨h1, a⟩
          · simp [track_loop_heap, hb, he, hseg, hgn]
          · rcases get_nodes_heap_frame h nodeRefs seg true m hm h1 a hgn
              with ⟨htk1, hm1, _⟩
            rcases hnl : get_node_list (heap_get h1 a) with _ | nn
            · simp only [track_loop_heap, hb, he, hseg, hgn, hnl]
              exact htk1
            · simp only [track_loop_heap, hb, he, hseg, hgn, hnl]
              rw [ih (extend_track_points_heap h1 trackA (heap_get h1 a) true)
                ws.head? nn trackA ?hl ?ht]
              case hl =>
                unfold extend_track_points_heap heap_set
                rw [List.length_set]
                exact hm1
              case ht => exact htr
              unfold extend_track_points_heap heap_set
              rw [take_set_of_le _ _ _ m htr, htk1]
    · rcases hseg : get_segment df ws with _ | seg
      · simp [track_loop_heap, hb, hseg]
      · rcases hgn : get_nodes_heap h nodeRefs seg false with _ | ⟨h1, a⟩
        · simp [track_loop_heap, hb, hseg, hgn]
        · rcases get_nodes_heap_frame h nodeRefs seg false m hm h1 a hgn
            with ⟨htk1, hm1, _⟩
          rcases hnl : get_node_list (heap_get h1 a) with _ | nn
          · simp only [track_loop_heap, hb, hseg, hgn, hnl]
            exact htk1
          · simp only [track_loop_heap, hb, hseg, hgn, hnl]
            rw [ih (extend_track_points_heap h1 trackA (heap_get h1 a) false)
              ws.head? nn trackA ?hl2 ?ht2]
            case hl2 =>
              unfold extend_track_points_heap heap_set
              rw [List.length_set]
              exact hm1
            case ht2 => exact htr
            unfold extend_track_points_heap heap_set
            rw [take_set_of_le _ _ _ m htr, htk1]

/-- C10: the reconstruction loop never mutates its inputs.  In the heap
rendering the input node lists occupy the cells 0..m-1; the only writes the
loop performs are the in-place reverse of the cell freshly allocated by the
slice copy nodes[current_segment][:] and the extend of the fresh track cell
allocated at address m, so after the loop returns (with any outcome) the first
m cells still hold exactly the input lists.  The ways frame df is only ever
read, and the track starts as the fresh one-element list [start_node]. -/
theorem C10_no_input_mutation (df : List Row) (lNodes : List (List Nat))
    (startNode : Nat) (fuel : Nat) :
    (create_track_points_heap df lNodes startNode fuel).1.take lNodes.length
      = lNodes := by
  unfold create_track_points_heap
  rw [track_loop_heap_frame df (List.range lNodes.length) lNodes.length fuel
    (lNodes ++ [[startNode]]) none startNode lNodes.length (by simp)
    (Nat.le_refl _)]
  rw [List.take_append_of_le_length (Nat.le_refl _), List.take_length]

theorem surviving_members_cons (fetch : Nat → Option (List Nat)) (w : Member)
    (ws : List Member) :
    surviving_members fetch (w :: ws)
      = (match fetch w.ref with
         | some (n0 :: nds) => (w.ref, n0 :: nds) :: surviving_members fetch ws
         | _ => surviving_members fetch ws) := by
  unfold surviving_members
  rw [List.filterMap_cons]
  rcases hf : fetch w.ref with _ | nd
  · simp [hf]
  · rcases nd with _ | ⟨n0, nds⟩ <;> simp [hf]

theorem get_relation_nodes_eq (fetch : Nat → Option (List Nat)) :
    ∀ (ways : List Member),
      get_relation_nodes fetch ways
        = ((surviving_members fetch ways).map Prod.fst,
           (surviving_members fetch ways).map (fun x => x.2.headD 0),
           (surviving_members fetch ways).map (fun x => x.2.getLastD 0),
           (surviving_members fetch ways).map Prod.snd)
  | [] => rfl
  | w :: ws => by
    rw [show get_relation_nodes fetch (w :: ws)
        = (let rest := get_relation_nodes fetch ws
           match get_way_nodes fetch w with
           | some (n0 :: nds) =>
             (w.ref :: rest.1, n0 :: rest.2.1,
               (n0 :: nds).getLastD 0 :: rest.2.2.1, (n0 :: nds) :: rest.2.2.2)
           | _ => rest) from rfl,
      get_relation_nodes_eq fetch ws, surviving_members_cons]
    unfold get_way_nodes
    rcases hf : fetch w.ref with _ | nd
    · rfl
    · rcases nd with _ | ⟨n0, nds⟩ <;> rfl

theorem rows_of_columns_map3 {β : Type} (f g k : β → Nat) :
    ∀ (l : List β),
      rows_of_columns (l.map f) (l.map g) (l.map k)
        = l.map (fun x => ⟨f x, g x, k x⟩)
  | [] => rfl
  | x :: t => by
    simp only [List.map_cons]
    rw [show rows_of_columns (f x :: List.map f t) (g x :: List.map g t)
        (k x :: List.map k t)
        = ⟨f x, g x, k x⟩ :: rows_of_columns (List.map f t) (List.map g t)
          (List.map k t) from rfl,
      rows_of_columns_map3 f g k t]

theorem get_relation_eq (fetch : Nat → Option (List Nat)) (ways : List Member) :
    get_relation fetch ways
      = ((surviving_members fetch ways).map
           (fun x => ⟨x.1, x.2.headD 0, x.2.getLastD 0⟩),
         (surviving_members fetch ways).map Prod.snd) := by
  unfold get_relation
  rw [get_relation_nodes_eq fetch ways]
  simp only []
  rw [show ((surviving_members fetch ways).map (fun x => x.2.headD 0))
      = (surviving_members fetch ways).map
          ((fun x : Nat × List Nat => x.2.headD 0)) from rfl]
  rw [rows_of_columns_map3 Prod.fst (fun x => x.2.headD 0)
    (fun x => x.2.getLastD 0) (surviving_members fetch ways)]

theorem surviving_members_mem (fetch : Nat → Option (List Nat))
    (ways : List Member) (x : Nat × List Nat)
    (hx : x ∈ surviving_members fetch ways) :
    fetch x.1 = some x.2 ∧ x.2 ≠ [] := by
  unfold surviving_members at hx
  rcases List.mem_filterMap.1 hx with ⟨w, _, hfw⟩
  rcases hf : fetch w.ref with _ | nd
  · rw [hf] at hfw
    simp at hfw
  · rcases nd with _ | ⟨n0, nds⟩
    · rw [hf] at hfw
      simp at hfw
    · rw [hf] at hfw
      simp only [Option.some.injEq] at hfw
      rw [← hfw]
      exact ⟨hf, by simp⟩

theorem surviving_members_fst (fetch : Nat → Option (List Nat)) :
    ∀ (ways : List Member),
      (surviving_members fetch ways).map Prod.fst
        = ways.filterMap (fun w =>
            match fetch w.ref with
            | some (_ :: _) => some w.ref
            | _ => none)
  | [] => rfl
  | w :: ws => by
    rw [surviving_members_cons, List.filterMap_cons]
    rcases hf : fetch w.ref with _ | nd
    · simp only [hf]
      exact surviving_members_fst fetch ws
    · rcases nd with _ | ⟨n0, nds⟩
      · simp only [hf]
        exact surviving_members_fst fetch ws
      · simp only [hf, List.map_cons]
        rw [surviving_members_fst fetch ws]

theorem surviving_members_eraseIdx (fetch : Nat → Option (List Nat)) :
    ∀ (ways : List Member) (i : Nat) (hi : i < ways.length),
      fetch ways[i].ref = none →
      surviving_members fetch ways = surviving_members fetch (ways.eraseIdx i)
  | [], i, hi, _ => by simp at hi
  | w :: ws, 0, _, hfail => by
    simp only [List.getElem_cons_zero] at hfail
    rw [List.eraseIdx_cons_zero, surviving_members_cons, hfail]
  | w :: ws, i + 1, hi, hfail => by
    simp only [List.getElem_cons_succ] at hfail
    rw [List.eraseIdx_cons_succ, surviving_members_cons, surviving_members_cons,
      surviving_members_eraseIdx fetch ws i
        (by simpa using Nat.lt_of_succ_lt_succ hi) hfail]

theorem surviving_members_length_all (fetch : Nat → Option (List Nat)) :
    ∀ (ways : List Member),
      (∀ w ∈ ways, ∃ n0 nds, fetch w.ref = some (n0 :: nds)) →
      (surviving_members fetch ways).length = ways.length
  | [], _ => rfl
  | w :: ws, hall => by
    rcases hall w (by simp) with ⟨n0, nds, hf⟩
    rw [surviving_members_cons, hf]
    simp only [List.length_cons]
    rw [surviving_members_length_all fetch ws
      (fun x hx => hall x (List.mem_cons_of_mem w hx))]

theorem surviving_members_fst_all (fetch : Nat → Option (List Nat)) :
    ∀ (ways : List Member),
      (∀ w ∈ ways, ∃ n0 nds, fetch w.ref = some (n0 :: nds)) →
      (surviving_members fetch ways).map Prod.fst = ways.map Member.ref
  | [], _ => rfl
  | w :: ws, hall => by
    rcases hall w (by simp) with ⟨n0, nds, hf⟩
    rw [surviving_members_cons, hf]
    simp only [List.map_cons]
    rw [surviving_members_fst_all fetch ws
      (fun x hx => hall x (List.mem_cons_of_mem w hx))]

theorem chain_df_of_maps {β : Type} (f : β → Nat) (g : β → List Nat) :
    ∀ (l : List β),
      chain_df (l.map f) (l.map g)
        = l.map (fun x => ⟨f x, (g x).headD 0, (g x).getLastD 0⟩)
  | [] => rfl
  | x :: t => by
    simp only [List.map_cons]
    rw [show chain_df (f x :: List.map f t) (g x :: List.map g t)
        = ⟨f x, (g x).headD 0, (g x).getLastD 0⟩
          :: chain_df (List.map f t) (List.map g t) from rfl,
      chain_df_of_maps f g t]

theorem head?_eq_some_headD (s : List Nat) (d : Nat) (h : s ≠ []) :
    s.head? = some (s.headD d) := by
  rcases s with _ | ⟨a, t⟩
  · exact absurd rfl h
  · rfl

/-- C6 (amended): when exactly the i-th member fails to fetch and every other
member fetches a nonempty node list, the edge table silently drops that member
(no error), has exactly len(members) - 1 rows, keeps the surviving rows in
input order (the way column equals the refs of the member list with entry i
erased), and reconstruction still succeeds on the remaining rows UNDER THE
SAME TWO RESTRICTIONS AS C1: the surviving sequences form a forward-stored
linear chain (chain_fromB) and every point identifier is at least the number
of surviving rows.  Both restrictions are forced by the code, not merely
convenient: survivors containing a reversed-stored segment are mis-stitched
by the extend_track_points slip (C2, C3, and part 2 of the C1
counterexample), and survivors with small point identifiers trip the pandas
index-membership test (part 1 of the C1 counterexample); the original claim's
unconditional success is refuted by the branching-remainder counterexample. -/
theorem C6_best_effort_drop (fetch : Nat → Option (List Nat))
    (members : List Member) (i : Nat) (hi : i < members.length)
    (hfail : fetch members[i].ref = none)
    (hok : ∀ w ∈ members.eraseIdx i, ∃ n0 nds, fetch w.ref = some (n0 :: nds)) :
    (get_relation fetch members).1.length = members.length - 1
    ∧ (get_relation fetch members).1.map Row.way
        = (members.eraseIdx i).map Member.ref
    ∧ ∀ (start fuel : Nat),
        chain_fromB start (get_relation fetch members).2 = true →
        (chain_walk start (get_relation fetch members).2).Nodup →
        ((get_relation fetch members).1.map Row.way).Nodup →
        (∀ p ∈ chain_walk start (get_relation fetch members).2,
          (get_relation fetch members).2.length ≤ p) →
        (get_relation fetch members).2.length < fuel →
        create_track_points (get_relation fetch members).1
            (get_relation fetch members).2 start fuel
          = .ok (chain_walk start (get_relation fetch members).2) := by
  have herase := surviving_members_eraseIdx fetch members i hi hfail
  have hrel := get_relation_eq fetch members
  have hlen_all := surviving_members_length_all fetch (members.eraseIdx i) hok
  have hfst_all := surviving_members_fst_all fetch (members.eraseIdx i) hok
  have hdf : (get_relation fetch members).1
      = (surviving_members fetch members).map
          (fun x => ⟨x.1, x.2.headD 0, x.2.getLastD 0⟩) := by rw [hrel]
  have hnodes : (get_relation fetch members).2
      = (surviving_members fetch members).map Prod.snd := by rw [hrel]
  have hway : (get_relation fetch members).1.map Row.way
      = (surviving_members fetch members).map Prod.fst := by
    rw [hdf, List.map_map]
    rfl
  have hb : (get_relation fetch members).1.map Row.way
      = (members.eraseIdx i).map Member.ref := by
    rw [hway, herase, hfst_all]
  refine ⟨?_, hb, ?_⟩
  · have h1 : (get_relation fetch members).1.length
        = (surviving_members fetch members).length := by
      rw [hdf, List.length_map]
    rw [h1, herase, hlen_all]
    have := List.length_eraseIdx_add_one hi
    omega
  · intro start fuel hch hwnd hynd hbig hfuel
    have hlen0 : ((get_relation fetch members).1.map Row.way).length
        = (get_relation fetch members).2.length := by
      rw [hway, hnodes, List.length_map, List.length_map]
    have hchain : chain_df ((get_relation fetch members).1.map Row.way)
        (get_relation fetch members).2 = (get_relation fetch members).1 := by
      rw [hway, hnodes, chain_df_of_maps, hdf]
    have hmain := track_chain_walk ((get_relation fetch members).1.map Row.way)
      (get_relation fetch members).2 start fuel hlen0 hch hwnd hynd hbig hfuel
    rw [hchain] at hmain
    exact hmain

/-- The lookup used by the C6 witness: member 6 fails, 5 and 7 fetch segments
forming the chain [100, 101] then [101, 102]. -/
def fetch_demo : Nat → Option (List Nat) := fun n =>
  if n = 5 then some [100, 101]
  else if n = 7 then some [101, 102] else none

/-- The member list used by the C6 witness. -/
def members_demo : List Member := [⟨5, "main"⟩, ⟨6, "main"⟩, ⟨7, "main"⟩]

/-- C6 witness: member 6 of three fails, the table gets exactly two rows. -/
theorem C6_best_effort_drop_witness :
    (get_relation fetch_demo members_demo).1.length = members_demo.length - 1 := by
  have h := C6_best_effort_drop fetch_demo members_demo 1 (by decide) (by decide)
    (by
      intro w hw
      have hw2 : w = (⟨5, "main"⟩ : Member) ∨ w = (⟨7, "main"⟩ : Member) := by
        simpa [members_demo, List.eraseIdx] using hw
      rcases hw2 with rfl | rfl
      · exact ⟨100, [101], rfl⟩
      · exact ⟨101, [102], rfl⟩)
  exact h.1

/-- The lookup used by the C6 counterexample: member 5 fails, members 6 and 7
fetch segments that BRANCH at point 10. -/
def fetch_branch_demo : Nat → Option (List Nat) := fun n =>
  if n = 6 then some [10, 11]
  else if n = 7 then some [10, 12] else none

/-- C6 counterexample: a member list with exactly one failing member whose
surviving rows do not form a linear chain.  The table does get exactly
3 - 1 = 2 rows, but reconstruction from start point 10 hits the two-way branch
and raises the uncaught TypeError instead of succeeding, refuting the claim
that reconstruction still succeeds for EVERY such member list. -/
theorem C6_reconstruction_fails_counterexample :
    (get_relation fetch_branch_demo [⟨5, "m"⟩, ⟨6, "m"⟩, ⟨7, "m"⟩]).1.length = 2
    ∧ create_track_points
        (get_relation fetch_branch_demo [⟨5, "m"⟩, ⟨6, "m"⟩, ⟨7, "m"⟩]).1
        (get_relation fetch_branch_demo [⟨5, "m"⟩, ⟨6, "m"⟩, ⟨7, "m"⟩]).2
        10 10
      = .error := by decide

/-- C8: the built edge table rows appear in the member ordering of the
role-filtered input (the way column is the order-preserving filterMap of the
surviving refs), the point-sequence collection is index-aligned with the
table, and every row has begin equal to the first and end equal to the last
element of its sequence, which is exactly the fetched list in its native
orientation. -/
theorem C8_table_shape (fetch : Nat → Option (List Nat))
    (members : List Member) (role : String) :
    (get_relation_members fetch members true role).1.length
      = (get_relation_members fetch members true role).2.length
    ∧ (get_relation_members fetch members true role).1.map Row.way
        = (skip_ways members role).filterMap (fun w =>
            match fetch w.ref with
            | some (_ :: _) => some w.ref
            | _ => none)
    ∧ ∀ (j : Nat) (r : Row),
        (get_relation_members fetch members true role).1[j]? = some r →
        ∃ nd, (get_relation_members fetch members true role).2[j]? = some nd
          ∧ fetch r.way = some nd
          ∧ nd.head? = some r.begin_
          ∧ nd.getLast? = some r.end_ := by
  have hgm : get_relation_members fetch members true role
      = get_relation fetch (skip_ways members role) := rfl
  have hrel := get_relation_eq fetch (skip_ways members role)
  rw [hgm, hrel]
  refine ⟨by simp, ?_, ?_⟩
  · rw [List.map_map]
    rw [show (Row.way ∘ fun x : Nat × List Nat =>
        (⟨x.1, x.2.headD 0, x.2.getLastD 0⟩ : Row)) = Prod.fst from rfl]
    exact surviving_members_fst fetch (skip_ways members role)
  · intro j r hr
    rw [List.getElem?_map] at hr
    rcases hx : (surviving_members fetch (skip_ways members role))[j]?
      with _ | x
    · rw [hx] at hr
      simp at hr
    · rw [hx] at hr
      simp only [Option.map_some', Option.some.injEq] at hr
      have hmem : x ∈ surviving_members fetch (skip_ways members role) := by
        rcases List.getElem?_eq_some_iff.1 hx with ⟨hlt, hx2⟩
        rw [← hx2]
        exact List.getElem_mem _
      rcases surviving_members_mem fetch (skip_ways members role) x hmem
        with ⟨hfx, hne⟩
      refine ⟨x.2, ?_, ?_, ?_, ?_⟩
      · rw [List.getElem?_map, hx]
        rfl
      · rw [← hr]
        exact hfx
      · rw [← hr]
        exact head?_eq_some_headD x.2 0 hne
      · rw [← hr]
        exact getLast?_eq_some_getLastD x.2 0 hne

/-- C8 witness: a concrete member list with one alternative-role member
filtered out; the way column lists the surviving refs in input order. -/
theorem C8_table_shape_witness :
    (get_relation_members fetch_demo
        [⟨5, "main"⟩, ⟨8, "alternative"⟩, ⟨7, "main"⟩] true "alternative").1.map
        Row.way
      = [5, 7] := by
  have h := (C8_table_shape fetch_demo
    [⟨5, "main"⟩, ⟨8, "alternative"⟩, ⟨7, "main"⟩] "alternative").2.1
  rw [h]
  rfl

theorem lookup_none_not_mem_fst :
    ∀ (l : List (Nat × Nat)) (k : Nat), List.lookup k l = none →
      k ∉ l.map Prod.fst
  | [], k, _ => by simp
  | (a, b) :: t, k, h => by
    have h2 : (match k == a with
        | true => some b
        | false => List.lookup k t) = none := h
    by_cases hk : k = a
    · subst hk
      rw [show (k == k) = true from by simp] at h2
      simp at h2
    · rw [show (k == a) = false from by simp [hk]] at h2
      intro hmem
      have hmem2 : k = a ∨ k ∈ t.map Prod.fst := by
        rw [List.map_cons] at hmem
        exact List.mem_cons.1 hmem
      rcases hmem2 with h1 | h1
      · exact hk h1
      · exact lookup_none_not_mem_fst t k h2 h1

/-- C7: behavior of the spec-modelled LRU cache wrapped around each lookup
operation (get_relation_by_id, get_relation_by_name, get_way_by_id,
get_node_by_id are lru_lookup at capacities 128, 128, 2048, 4096).  For a
cache whose keys are distinct, that is full (N entries at capacity N) and
whose least recently used entry is e: a call on a cached key returns the
stored value WITHOUT a remote call and moves that key to the front (a use for
recency); a call on a fresh key performs the remote call, stores the fetched
value, keeps the cache at capacity and evicts exactly e (its key is gone,
every other entry survives). -/
theorem C7_lru_cache (cap : Nat) (fetch : Nat → Nat) (cache : List (Nat × Nat))
    (kh kn : Nat) (v : Nat) (e : Nat × Nat)
    (hnd : (cache.map Prod.fst).Nodup)
    (hhit : List.lookup kh cache = some v)
    (hmiss : List.lookup kn cache = none)
    (hfull : cache.length = cap)
    (hlast : cache.getLast? = some e) :
    (lru_lookup cap fetch cache kh).1 = v
    ∧ (lru_lookup cap fetch cache kh).2.2 = false
    ∧ (lru_lookup cap fetch cache kh).2.1.head? = some (kh, v)
    ∧ (lru_lookup cap fetch cache kn).1 = fetch kn
    ∧ (lru_lookup cap fetch cache kn).2.2 = true
    ∧ (lru_lookup cap fetch cache kn).2.1.length = cap
    ∧ e.1 ∉ (lru_lookup cap fetch cache kn).2.1.map Prod.fst
    ∧ ∀ e2 ∈ cache, e2 ≠ e → e2 ∈ (lru_lookup cap fetch cache kn).2.1 := by
  have hcne : cache ≠ [] := by
    intro he
    rw [he] at hlast
    simp at hlast
  have hpos : 1 ≤ cache.length := List.length_pos.2 hcne
  have hdecomp : cache.dropLast ++ [e] = cache :=
    List.dropLast_append_getLast? e hlast
  have hhitcache : lru_lookup cap fetch cache kh
      = (v, (kh, v) :: cache.eraseP (fun p => p.1 == kh), false) := by
    unfold lru_lookup
    rw [hhit]
  have hmisscache : lru_lookup cap fetch cache kn
      = (fetch kn, (kn, fetch kn) :: cache.dropLast, true) := by
    unfold lru_lookup
    rw [hmiss]
    have hlt : cap < ((kn, fetch kn) :: cache).length := by
      simp [hfull]
    simp only [hlt, if_true]
    rcases cache with _ | ⟨c0, cs⟩
    · exact absurd rfl hcne
    · rfl
  have hemem : e ∈ cache := by
    rw [← hdecomp]
    exact List.mem_append_right _ (by simp)
  have hknfst : kn ∉ cache.map Prod.fst := lookup_none_not_mem_fst cache kn hmiss
  have hndsplit : ((cache.dropLast.map Prod.fst) ++ [e.1]).Nodup := by
    have hmapapp : (cache.dropLast.map Prod.fst) ++ [e.1]
        = (cache.dropLast ++ [e]).map Prod.fst := by
      rw [List.map_append]
      rfl
    rw [hmapapp, hdecomp]
    exact hnd
  refine ⟨by rw [hhitcache], by rw [hhitcache], by rw [hhitcache]; rfl,
    ?_, ?_, ?_, ?_, ?_⟩
  · rw [hmisscache]
  · rw [hmisscache]
  · rw [hmisscache]
    simp only [List.length_cons, List.length_dropLast]
    omega
  · rw [hmisscache]
    simp only [List.map_cons, List.mem_cons]
    push_neg
    constructor
    · intro heq
      exact hknfst (heq ▸ List.mem_map_of_mem Prod.fst hemem)
    · intro hin
      rcases List.nodup_append.1 hndsplit with ⟨_, _, hdisj⟩
      exact hdisj hin (by simp)
  · intro e2 he2 hne
    rw [hmisscache]
    rw [← hdecomp] at he2
    rcases List.mem_append.1 he2 with hin | hin
    · exact List.mem_cons_of_mem _ hin
    · exact absurd (by simpa using hin) hne

/-- C7 witness: a full capacity-2 cache; key 2 hits and returns the stored
value without a remote call. -/
theorem C7_lru_cache_witness :
    (lru_lookup 2 (fun k => k * 10) [(1, 10), (2, 20)] 2).1 = 20 :=
  (C7_lru_cache 2 (fun k => k * 10) [(1, 10), (2, 20)] 2 3 20 (2, 20)
    (by decide) (by decide) (by decide) (by decide) (by decide)).1
